import Mathlib

/-!
Verification development for the roster-ROI dashboard script
(`streamlit_app.py`).  The script's data pipeline is shallowly embedded:
pandas DataFrames become lists of rows of optional string cells (a `none`
cell models a NaN / missing value), Python floats become rationals, and
code that can raise (pandas `KeyError` on bracket indexing) returns
`Except`.  Python `float(...)` / `int(...)` string conversion is modelled
for the usual decimal notations (optional surrounding whitespace, sign,
decimal digits, decimal point, exponent); exotic accepted forms
(underscore digit separators, `inf`, `nan`, hex floats) are outside the
model, as rationals cannot represent the non-finite values anyway.
-/

namespace RosterROI

/-- ASCII whitespace, as matched by the Python regex class and by
`str.strip()` for the inputs in scope. -/
def isSpace (c : Char) : Bool :=
  c = ' ' || c = '\t' || c = '\n' || c = '\r' || c = '\x0b' || c = '\x0c'

/-- Substring test: `pat` occurs contiguously inside `l` (Python `in`). -/
def containsSub (l pat : List Char) : Bool :=
  l.tails.any (fun t => pat.isPrefixOf t)

/-- Remove every non-overlapping occurrence of `pat` (left to right), as
Python `str.replace(pat, "")` does. -/
def removeAll (pat : List Char) (l : List Char) : List Char :=
  if hp : pat.isEmpty then l
  else
    match l with
    | [] => []
    | c :: rest =>
      if pat.isPrefixOf (c :: rest) then
        removeAll pat (List.drop pat.length (c :: rest))
      else
        c :: removeAll pat rest
  termination_by l.length
  decreasing_by
  · simp only [List.length_drop, List.length_cons]
    have : pat.length ≠ 0 := by
      intro h
      exact hp (by simpa [List.isEmpty_iff, List.length_eq_zero] using h)
    omega
  · simp

/-- Python `str.strip()`: drop leading and trailing whitespace. -/
def pyStrip (l : List Char) : List Char :=
  ((l.dropWhile isSpace).reverse.dropWhile isSpace).reverse

/-- The trailing status tags of the regex
`\s(Q|IR|PUP|SUSP|NFI|Jr\.|Sr\.)$` in `clean_name`, in alternation
order. -/
def statusTags : List (List Char) :=
  ["Q".data, "IR".data, "PUP".data, "SUSP".data, "NFI".data,
   "Jr.".data, "Sr.".data]

/-- Does `l` end with one whitespace character followed by `tag`?  This is
exactly when the anchored regex `\s(tag)$` matches. -/
def endsWithWsTag (l tag : List Char) : Bool :=
  tag.reverse.isPrefixOf l.reverse &&
    (match l.reverse.drop tag.length with
     | [] => false
     | w :: _ => isSpace w)

/-- The `re.sub(r'\s(Q|IR|PUP|SUSP|NFI|Jr\.|Sr\.)$', '', name)` step: the
regex is anchored at the end of the string, so it removes at most one
final whitespace-plus-tag group. -/
def stripStatusTag (l : List Char) : List Char :=
  match statusTags.find? (fun t => endsWithWsTag l t) with
  | some t => (l.reverse.drop (t.length + 1)).reverse
  | none => l

/-- Depth-chart role words removed (everywhere in the string) by the
`str.replace` chain in `clean_name`, in application order. -/
def roleWords : List (List Char) :=
  ["Starter".data, "2nd".data, "3rd".data, "4th".data]

/-- Character-list core of `clean_name`: sentinel values (the dash
placeholder and header leakage containing "Rank" or "Pos") are discarded;
otherwise role words are removed, one trailing status tag is stripped,
and the result is whitespace-trimmed. -/
def cleanNameChars (l : List Char) : Option (List Char) :=
  if l = "-".data || containsSub l "Rank".data || containsSub l "Pos".data then
    none
  else
    some (pyStrip (stripStatusTag (roleWords.foldl (fun acc w => removeAll w acc) l)))

/-- `clean_name` on an optional cell (`none` models NaN / missing, for
which `pd.isna` returns true). -/
def cleanName (v : Option String) : Option String :=
  match v with
  | none => none
  | some s => (cleanNameChars s.data).map String.mk

/-- Python truthiness filter used at `if name:` and `if p_clean:`: `None`
and the empty string are falsy. -/
def truthy (o : Option String) : Option String :=
  o.bind (fun s => if s = "" then none else some s)

/-- Characters removed by `re.sub(r'[\$,\s]', '', ...)` in
`clean_currency`. -/
def isCurrencyJunk (c : Char) : Bool :=
  c = '$' || c = ',' || isSpace c

/-- The regex-removal step of `clean_currency`. -/
def stripCurrency (l : List Char) : List Char :=
  l.filter (fun c => !isCurrencyJunk c)

/-- Numeric value of a list of decimal digit characters, most significant
first. -/
def digitsToNat (l : List Char) : ℕ :=
  l.foldl (fun a c => 10 * a + (c.toNat - 48)) 0

/-- Exponent suffix of a Python float literal: optional sign and a
nonempty digit run; the returned rational is the scale factor. -/
def expFactor (l : List Char) : Option ℚ :=
  match l with
  | [] => none
  | c :: r =>
    if c = '+' then
      if r.isEmpty || !r.all Char.isDigit then none
      else some ((10 : ℚ) ^ (digitsToNat r))
    else if c = '-' then
      if r.isEmpty || !r.all Char.isDigit then none
      else some (((10 : ℚ) ^ (digitsToNat r))⁻¹)
    else
      if !(c :: r).all Char.isDigit then none
      else some ((10 : ℚ) ^ (digitsToNat (c :: r)))

/-- Unsigned part of Python `float(...)` on a string: digits, optional
decimal point and fraction digits (at least one digit overall), optional
exponent. -/
def pyFloatCore (l : List Char) : Option ℚ :=
  let ip := l.takeWhile Char.isDigit
  let rest := l.dropWhile Char.isDigit
  match rest with
  | [] => if ip.isEmpty then none else some ((digitsToNat ip : ℚ))
  | c :: r2 =>
    if c = '.' then
      let fp := r2.takeWhile Char.isDigit
      let r3 := r2.dropWhile Char.isDigit
      if ip.isEmpty && fp.isEmpty then none
      else
        let v : ℚ := (digitsToNat ip : ℚ) + (digitsToNat fp : ℚ) / (10 : ℚ) ^ fp.length
        match r3 with
        | [] => some v
        | e :: r4 =>
          if e = 'e' || e = 'E' then (expFactor r4).map (fun f => v * f) else none
    else if c = 'e' || c = 'E' then
      if ip.isEmpty then none
      else (expFactor r2).map (fun f => (digitsToNat ip : ℚ) * f)
    else none

/-- Optional sign in front of the unsigned float core. -/
def pyFloatSigned (l : List Char) : Option ℚ :=
  match l with
  | [] => none
  | c :: r =>
    if c = '+' then pyFloatCore r
    else if c = '-' then (pyFloatCore r).map (fun q => -q)
    else pyFloatCore (c :: r)

/-- Python `float(...)` on a string, for decimal notation: surrounding
whitespace, optional sign, then the unsigned core. -/
def pyFloat (l0 : List Char) : Option ℚ :=
  pyFloatSigned (pyStrip l0)

/-- `clean_currency`: NaN gives 0.0; otherwise strip `$`, `,` and
whitespace, parse as a float, and coerce any parse failure to 0.0. -/
def cleanCurrency (v : Option String) : ℚ :=
  match v with
  | none => 0
  | some s => (pyFloat (stripCurrency s.data)).getD 0

/-- Optional sign and a nonempty digit run, after whitespace
stripping. -/
def pyIntCore (l : List Char) : Option ℤ :=
  match l with
  | [] => none
  | c :: r =>
    if c = '+' then
      if r.isEmpty || !r.all Char.isDigit then none else some ((digitsToNat r : ℤ))
    else if c = '-' then
      if r.isEmpty || !r.all Char.isDigit then none else some (-(digitsToNat r : ℤ))
    else if (c :: r).all Char.isDigit then some ((digitsToNat (c :: r) : ℤ))
    else none

/-- Python `int(...)` on a string: surrounding whitespace, optional sign,
nonempty run of decimal digits. -/
def pyInt (l0 : List Char) : Option ℤ :=
  pyIntCore (pyStrip l0)

/-- Python `str.split(sep)` for a single-character separator: keeps empty
segments, and the empty string yields one empty segment. -/
def pySplit (sep : Char) : List Char → List (List Char)
  | [] => [[]]
  | c :: rest =>
    let r := pySplit sep rest
    if c = sep then [] :: r
    else
      match r with
      | [] => [[c]]
      | h :: t => (c :: h) :: t

/-- The `try` block of the performance loop, given the raw rank cell text:
requires a `/` (the loop's guard), parses the two `int(...)` pieces, and
scores `max(0, 100 - rank/total*100)`.  A zero pool size raises
`ZeroDivisionError`, which the bare `except` turns into a skip, as does
any `int(...)` failure. -/
def parseRankScore (rankRaw : List Char) : Option ℚ :=
  if rankRaw.contains '/' then
    let parts := pySplit '/' rankRaw
    match pyInt (parts.getD 0 []), pyInt (parts.getD 1 []) with
    | some r, some t =>
        if t = 0 then none
        else some (max 0 (100 - (r : ℚ) / (t : ℚ) * 100))
    | _, _ => none
  else none

/-- The `POS_DATA` table: category, raw position labels, premium weight. -/
def POS_DATA : List (String × List String × ℚ) :=
  [("QB", (["QB"], 1)),
   ("WR", (["WR"], 19/20)),
   ("OL", (["LT", "LG", "C", "RG", "RT", "OL", "G", "T"], 9/10)),
   ("DL", (["ED", "IDL", "DT", "DE", "DL", "LDE", "RDE", "NT"], 9/10)),
   ("DB", (["CB", "S", "FS", "SS", "DB", "LCB", "RCB"], 17/20)),
   ("TE", (["TE"], 3/4)),
   ("LB", (["LB", "ILB", "OLB", "WLB", "LILB", "RILB", "SLB"], 7/10)),
   ("RB", (["RB", "FB", "HB"], 13/20)),
   ("ST", (["K", "P", "LS"], 1/2))]

/-- The fixed category set (the keys of `POS_DATA`). -/
def fixedCategories : List String :=
  POS_DATA.map (fun p => p.1)

/-- `get_roi_category`: NaN and unmatched labels fall through to the
catch-all category `"ST"`; otherwise the upper-cased, stripped label is
looked up against each category's group list in table order. -/
def getRoiCategory (lbl : Option String) : String :=
  match lbl with
  | none => "ST"
  | some s =>
    let u : String := String.mk (pyStrip (s.data.map Char.toUpper))
    ((POS_DATA.find? (fun p => p.2.1.contains u)).map (fun p => p.1)).getD "ST"

/-- A pandas DataFrame as read from a CSV: named columns, rows of cells in
column order; a `none` cell is NaN.  Columns are assumed nonempty, as
`pd.read_csv` refuses files with no columns. -/
structure DataFrame where
  columns : List String
  rows : List (List (Option String))
deriving Repr, DecidableEq

/-- `row.get(col)` on a pandas row Series: `None` when the label is
absent, and the (possibly NaN) cell otherwise; the NaN and `None` cases
are collapsed, since every consumer in the script treats them alike
through `pd.isna`. -/
def rowGet (df : DataFrame) (row : List (Option String)) (c : String) : Option String :=
  match df.columns.findIdx? (fun x => x = c) with
  | none => none
  | some i => (row.get? i).join

/-- `row[col]` bracket indexing on a pandas row Series: raises `KeyError`
when the label is absent. -/
def rowIndexAccess (df : DataFrame) (row : List (Option String)) (c : String) :
    Except String (Option String) :=
  match df.columns.findIdx? (fun x => x = c) with
  | none => Except.error "KeyError"
  | some i => Except.ok ((row.get? i).join)

/-- Lower-case a column name (ASCII, as all column names in scope are). -/
def lowerStr (s : String) : String :=
  String.mk (s.data.map Char.toLower)

/-- `cap_col`: first column whose lower-cased name contains "cap",
falling back to the literal label "Cap Number". -/
def capCol (df : DataFrame) : String :=
  (df.columns.find? (fun c => containsSub (lowerStr c).data "cap".data)).getD "Cap Number"

/-- `p_col`: first column whose lower-cased name contains "player",
falling back to the first column. -/
def pCol (df : DataFrame) : String :=
  (df.columns.find? (fun c => containsSub (lowerStr c).data "player".data)).getD
    (df.columns.headD "")

/-- The `fin_list` loop over the roster rows: rows whose cleaned name is
falsy are skipped; for the others the cap cell is read with bracket
indexing (which raises `KeyError` when `cap_col` resolved to the missing
fallback label) and cleaned to a number. -/
def buildFinRows (df : DataFrame) : List (List (Option String)) → Except String (List (String × ℚ))
  | [] => Except.ok []
  | row :: rest =>
    match truthy (cleanName (rowGet df row (pCol df))) with
    | some n =>
      match rowIndexAccess df row (capCol df) with
      | Except.error e => Except.error e
      | Except.ok cell =>
        match buildFinRows df rest with
        | Except.error e => Except.error e
        | Except.ok tail => Except.ok ((n, cleanCurrency cell) :: tail)
    | none => buildFinRows df rest

/-- `fin_list` for a whole roster DataFrame. -/
def buildFinList (df : DataFrame) : Except String (List (String × ℚ)) :=
  buildFinRows df df.rows

/-- `drop_duplicates('Player')`: keep the first record for each name,
preserving order. -/
def dedupFirst : List (String × ℚ) → List (String × ℚ)
  | [] => []
  | (n, v) :: rest => (n, v) :: dedupFirst (rest.filter (fun p => p.1 ≠ n))
  termination_by l => l.length
  decreasing_by
    simp only [List.length_cons]
    exact Nat.lt_succ_of_le (List.length_filter_le _ _)

/-- Index of the depth-chart label column: `iloc[:, 12]` when there are
more than 12 columns, else `iloc[:, 0]`. -/
def labelIdx (df : DataFrame) : ℕ :=
  if df.columns.length > 12 then 12 else 0

/-- The depth-chart player-slot cells of one row: `iloc[:, 13:17]` when
there are more than 16 columns, else `iloc[:, 1:5]`. -/
def depthCells (df : DataFrame) (row : List (Option String)) : List (Option String) :=
  if df.columns.length > 16 then (row.drop 13).take 4 else (row.drop 1).take 4

/-- The `pos_map` construction loop.  The dict is modelled as an
association list onto which each `pos_map[p_clean] = ...` assignment
prepends its pair, so that `List.lookup` (first match) returns the value
of the latest assignment, exactly as a Python dict lookup does. -/
def buildPosMap (df : DataFrame) : List (String × String) :=
  df.rows.foldl
    (fun m row =>
      match (row.get? (labelIdx df)).join with
      | none => m
      | some lbl =>
        ((depthCells df row).filterMap id).foldl
          (fun m2 pn =>
            match truthy (cleanName (some pn)) with
            | some pc => (pc, getRoiCategory (some lbl)) :: m2
            | none => m2)
          m)
    []

/-- The `(name, category)` assignments the `pos_map` loop performs, in
scan order (rows outer, slot columns inner). -/
def posAssignments (df : DataFrame) : List (String × String) :=
  (df.rows.map
    (fun row =>
      match (row.get? (labelIdx df)).join with
      | none => []
      | some lbl =>
        ((depthCells df row).filterMap id).filterMap
          (fun pn =>
            (truthy (cleanName (some pn))).map
              (fun pc => (pc, getRoiCategory (some lbl)))))).flatten

/-- The 2026 salary cap constant. -/
def SALARY_CAP_2026 : ℚ := 303500000

/-- A normalized contract record: cleaned name, cap hit, depth-chart
category (`none` when the name was never assigned one), and cap hit as a
percentage of the cap. -/
structure RosterRec where
  player : String
  capHit : ℚ
  position : Option String
  capPct : ℚ
deriving Repr, DecidableEq

/-- Roster normalization (lines 51-74): build `fin_list`, abort with
`KeyError` when it is empty — `pd.DataFrame([]).drop_duplicates('Player')`
raises, as the empty frame has no `Player` column — then dedup
first-wins, attach `pos_map` categories via `.map` (missing names become
NaN, modelled as `none`), and derive the cap percentage. -/
def normalizeContracts (df : DataFrame) : Except String (List RosterRec) :=
  match buildFinList df with
  | Except.error e => Except.error e
  | Except.ok fin =>
    if fin.isEmpty then Except.error "KeyError"
    else
      let dd := dedupFirst fin
      let pm := buildPosMap df
      Except.ok (dd.map (fun nc =>
        ⟨nc.1, nc.2, List.lookup nc.1 pm, nc.2 / SALARY_CAP_2026 * 100⟩))

/-- `str(cell)` for the rank cell: a missing or NaN cell prints as a
non-numeric word with no `/` in it ("None" or "nan"), so the two cases
are interchangeable downstream; "nan" is used. -/
def strOfCell (v : Option String) : List Char :=
  match v with
  | none => "nan".data
  | some s => s.data

/-- The performance-file loop (lines 81-91): per row, clean the
`Unnamed: 2` name cell, and when it is truthy and the `Unnamed: 3` rank
cell parses under the compound `rank/pool` scheme, record the score in
`perf_map` and the raw rank text in `display_rank_map` (dict assignments
modelled by prepending, read back with `List.lookup`). -/
def buildPerfMaps (df : DataFrame) : List (String × ℚ) × List (String × String) :=
  df.rows.foldl
    (fun maps row =>
      match truthy (cleanName (rowGet df row "Unnamed: 2")) with
      | some n =>
        let rankRaw := strOfCell (rowGet df row "Unnamed: 3")
        match parseRankScore rankRaw with
        | some sc => ((n, sc) :: maps.1, (n, String.mk rankRaw) :: maps.2)
        | none => maps
      | none => maps)
    ([], [])

/-- A fully scored entity row of the final `player_data` table. -/
structure Entity where
  player : String
  capHit : ℚ
  position : Option String
  capPct : ℚ
  grade : ℚ
  actualRank : String
  weight : ℚ
  roi : ℚ
deriving Repr, DecidableEq

/-- `POS_DATA.get(x, {'weight': 0.5})['weight']`: a NaN position (absent
dict key) falls back to weight 0.5. -/
def weightOf (pos : Option String) : ℚ :=
  match pos with
  | none => 1/2
  | some p => ((POS_DATA.find? (fun q => q.1 = p)).map (fun q => q.2.2)).getD (1/2)

/-- The calculation block (lines 100-102) applied to graded records:
attach the positional weight and `ROI = Grade * Weight / (Cap % + 0.1)`
to every record, filtering nothing. -/
def scoreRecords (l : List (RosterRec × ℚ × String)) : List Entity :=
  l.map (fun rga =>
    { player := rga.1.player
      capHit := rga.1.capHit
      position := rga.1.position
      capPct := rga.1.capPct
      grade := rga.2.1
      actualRank := rga.2.2
      weight := weightOf rga.1.position
      roi := rga.2.1 * weightOf rga.1.position / (rga.1.capPct + 1/10) })

/-- The whole pipeline for an uploaded roster file and an optional
performance file: normalize contracts, attach grades — per-name scores
with `fillna(50)` when a performance file is present, the flat default
70.0 otherwise — then score. -/
def runPipeline (roster : DataFrame) (perf : Option DataFrame) :
    Except String (List Entity) :=
  match normalizeContracts roster with
  | Except.error e => Except.error e
  | Except.ok recs =>
    let graded :=
      match perf with
      | some pdf =>
        let maps := buildPerfMaps pdf
        recs.map (fun r =>
          (r, (List.lookup r.player maps.1).getD 50,
              (List.lookup r.player maps.2).getD "N/A"))
      | none => recs.map (fun r => (r, (70 : ℚ), "N/A"))
    Except.ok (scoreRecords graded)

/-- Decimal digit characters of a natural number, most significant first
(proof-side printer used to quantify over concrete numeral strings). -/
def natChars (n : ℕ) : List Char :=
  if n < 10 then [Char.ofNat (48 + n)]
  else natChars (n / 10) ++ [Char.ofNat (48 + n % 10)]
  termination_by n
  decreasing_by
    exact Nat.div_lt_self (by omega) (by omega)

/-- Modelled from the spec's words, for comparison with `clean_currency`:
the input with every dollar sign, comma, and whitespace character
removed. -/
def specCurrencyRemoved (s : String) : List Char :=
  s.data.filter (fun c => !(c = '$' || c = ',' || isSpace c))

/-- A roster file whose only column is a name column: no column name
contains "cap", so `cap_col` falls back to the absent label
"Cap Number". -/
def noCapDF : DataFrame :=
  ⟨["Player"], [[some "John Doe"]]⟩

/-- A two-column roster file: the depth-chart block scan (label column 0,
slot columns 1-4) sees the name cell as a label and the cap cell as a
slot occupant, so the roster entity "John Doe" never receives a
category. -/
def missDepthDF : DataFrame :=
  ⟨["Player", "Cap Number"], [[some "John Doe", some "$1,000,000"]]⟩

/-- A performance file whose rank cell is a plain integer, not a
`rank/pool` string. -/
def plainRankDF : DataFrame :=
  ⟨["Unnamed: 0", "Unnamed: 1", "Unnamed: 2", "Unnamed: 3"],
   [[none, none, some "John Doe", some "8"]]⟩

/-- A performance file with one compound-rank row. -/
def compoundRankDF : DataFrame :=
  ⟨["Unnamed: 2", "Unnamed: 3"], [[some "Jane Roe", some "8/40"]]⟩

/-- A roster file in which the same player name appears in the
depth-chart block under two different labels ("QB" on the first row,
"RB" on the second). -/
def twoLabelDF : DataFrame :=
  ⟨["Slot", "P1", "P2", "P3", "P4", "Team Cap"],
   [[some "QB", some "John Doe", none, none, none, some "$1"],
    [some "RB", some "John Doe", none, none, none, some "$1"]]⟩

/-- The entity produced from `missDepthDF` with no performance file. -/
def missDepthEntity : Entity :=
  ⟨"John Doe", 1000000, none, 1000000 / 303500000 * 100, 70, "N/A", 1/2,
   70 * (1/2) / (1000000 / 303500000 * 100 + 1/10)⟩

/-- The entity produced from `missDepthDF` joined against
`compoundRankDF`, whose only graded name ("Jane Roe") does not match. -/
def missDepthEntity50 : Entity :=
  ⟨"John Doe", 1000000, none, 1000000 / 303500000 * 100, 50, "N/A", 1/2,
   50 * (1/2) / (1000000 / 303500000 * 100 + 1/10)⟩

/-- A one-element scored-record input realizing the spec's ROI example:
grade 90, category QB (weight 1), cap percentage 15. -/
def roiExampleInput : List (RosterRec × ℚ × String) :=
  [(⟨"QB1", 45525000, some "QB", 15⟩, 90, "N/A")]

/-- The scored entity of `roiExampleInput`. -/
def roiExampleEntity : Entity :=
  ⟨"QB1", 45525000, some "QB", 15, 90, "N/A", 1, 900/151⟩

/-! ## Theorems -/

/-- C1, counterexample: the rank string "1/1" is scored 0.0 by the
pipeline's formula `max(0, 100 - (1/1)*100)`, not 100.0 as the claim's
"in particular" list states. -/
theorem c1_counterexample :
    parseRankScore ("1/1".data) = some 0 ∧ (0 : ℚ) ≠ 100 := by
  refine ⟨by with_unfolding_all rfl, by norm_num⟩

/-- C6, counterexample: the name string "Rankin IR" ends in the known
status tag " IR", yet `clean_name` returns `None` (it is discarded by the
"Rank" header-leakage sentinel check), not "Rankin" with the tag
removed. -/
theorem c6_counterexample :
    cleanName (some "Rankin IR") = none ∧ none ≠ some "Rankin" := by
  refine ⟨by with_unfolding_all rfl, by simp⟩

/-- C8, counterexample: the parsable money string "-$1,000" is cleaned to
the negative value -1000.0, so the parsed cap amount is not always
non-negative. -/
theorem c8_counterexample :
    cleanCurrency (some "-$1,000") = -1000 ∧ ¬ (0 : ℚ) ≤ -1000 := by
  refine ⟨by with_unfolding_all rfl, by norm_num⟩

/-- C2, counterexample: on a roster file with a usable name column but no
cap-like column, the normalizer does not yield an empty entity set with a
warning — the `row[cap_col]` access with the fallback label "Cap Number"
raises a `KeyError` that escapes. -/
theorem c2_counterexample :
    normalizeContracts noCapDF = Except.error "KeyError" ∧
      ∀ l, normalizeContracts noCapDF ≠ Except.ok l := by
  refine ⟨by with_unfolding_all rfl, ?_⟩
  intro l h
  rw [show normalizeContracts noCapDF = Except.error "KeyError" from by with_unfolding_all rfl] at h
  exact absurd h (by simp)

/-- C3, counterexample: the roster `missDepthDF` normalizes to a single
entity whose category is `none` — the player never appears in the
depth-chart block, and `.map(pos_map)` leaves such names NaN rather than
assigning the catch-all category. -/
theorem c3_counterexample :
    normalizeContracts missDepthDF =
      Except.ok [⟨"John Doe", 1000000, none, 1000000 / 303500000 * 100⟩] ∧
      (none : Option String) ∉ fixedCategories.map some := by
  refine ⟨by with_unfolding_all rfl, by simp [fixedCategories, POS_DATA]⟩

/-- C4, counterexample: a performance row whose rank cell is the plain
integer "8" is skipped entirely — the claim's first accepted encoding
would score it `max(0, 100 - 8) = 92`, but the loop requires a "/" and
the name is simply absent from the returned map. -/
theorem c4_counterexample :
    List.lookup "John Doe" (buildPerfMaps plainRankDF).1 = none ∧
      (buildPerfMaps plainRankDF).1 = [] ∧ parseRankScore ("8".data) = none := by
  refine ⟨by with_unfolding_all rfl, by with_unfolding_all rfl, by with_unfolding_all rfl⟩

/-- C5, counterexample: in `twoLabelDF` the cleaned name "John Doe" first
appears under the label "QB" and later under "RB"; the final `pos_map`
entry is "RB" — the later assignment overwrote the earlier one, so the
first mapping does not win. -/
theorem c5_counterexample :
    List.lookup "John Doe" (buildPosMap twoLabelDF) = some "RB" ∧
      some "RB" ≠ some "QB" := by
  refine ⟨by with_unfolding_all rfl, by simp⟩

/-- C7: currency cleaning is total (it returns a rational for every
optional input string, never an exception) and agrees with the spec's
description: the result is the parsed numeric value of the input with
every `$`, `,`, and whitespace character removed, and 0.0 whenever that
stripped text does not parse as a number.  The two closing conjuncts
instantiate the parsing and non-parsing cases. -/
theorem c7_currency_cleaning :
    (∀ s : String, cleanCurrency (some s) = (pyFloat (specCurrencyRemoved s)).getD 0) ∧
      cleanCurrency (some "$1,234.5 ") = 2469/2 ∧
      cleanCurrency (some "12 dollars") = 0 := by
  refine ⟨fun s => rfl, by with_unfolding_all rfl, by with_unfolding_all rfl⟩


/-- C9: the scoring step is total — it filters nothing, keeping one
output entity per input record — and computes for every entity
`roi = grade * category_weight / (cap_fraction_pct + 0.1)`, where the
weight is the positional weight of the entity's category; at grade 90,
weight 1.0 (category QB) and cap percentage 15.0 the ROI is
900/151 ≈ 5.96, within 0.01 of the spec's 5.96. -/
theorem c9_roi_total (l : List (RosterRec × ℚ × String)) :
    (scoreRecords l).length = l.length ∧
      (∀ e ∈ scoreRecords l,
        e.weight = weightOf e.position ∧
        e.roi = e.grade * e.weight / (e.capPct + 1/10)) ∧
      (scoreRecords roiExampleInput = [roiExampleEntity] ∧
        |roiExampleEntity.roi - 596/100| < 1/100) := by
  refine ⟨List.length_map _ _, ?_, by with_unfolding_all rfl, ?_⟩
  · intro e he
    simp only [scoreRecords, List.mem_map] at he
    obtain ⟨rga, _, rfl⟩ := he
    exact ⟨rfl, rfl⟩
  · show |(900/151 : ℚ) - 596/100| < 1/100
    rw [abs_sub_lt_iff]
    constructor <;> norm_num

/-- C9 witness: the totality theorem applied to the one-record ROI
example input. -/
theorem c9_witness :
    (scoreRecords roiExampleInput).length = 1 ∧
      roiExampleEntity.weight = weightOf roiExampleEntity.position ∧
      roiExampleEntity.roi =
        roiExampleEntity.grade * roiExampleEntity.weight / (roiExampleEntity.capPct + 1/10) := by
  refine ⟨(c9_roi_total roiExampleInput).1, ?_, ?_⟩
  · exact ((c9_roi_total roiExampleInput).2.1 roiExampleEntity
      (by rw [(c9_roi_total roiExampleInput).2.2.1]; exact List.mem_singleton.mpr rfl)).1
  · exact ((c9_roi_total roiExampleInput).2.1 roiExampleEntity
      (by rw [(c9_roi_total roiExampleInput).2.2.1]; exact List.mem_singleton.mpr rfl)).2

/-- C10: the placeholder grade depends on the missing-data mode.  With
no performance file every pipeline entity's grade is the flat default
70.0; with a performance file present, an entity whose cleaned name is
absent from the performance map receives `fillna`'s default 50.0. -/
theorem c10_grade_defaults (roster perf : DataFrame) :
    (∀ es, runPipeline roster none = Except.ok es → ∀ e ∈ es, e.grade = 70) ∧
      (∀ es, runPipeline roster (some perf) = Except.ok es → ∀ e ∈ es,
        List.lookup e.player (buildPerfMaps perf).1 = none → e.grade = 50) := by
  constructor
  · intro es hok e he
    cases hnc : normalizeContracts roster with
    | error msg => simp [runPipeline, hnc] at hok
    | ok recs =>
      simp only [runPipeline, hnc] at hok
      injection hok with hok
      subst hok
      simp only [scoreRecords, List.mem_map] at he
      obtain ⟨rga, hrga, rfl⟩ := he
      obtain ⟨r, _, rfl⟩ := hrga
      rfl
  · intro es hok e he hlook
    cases hnc : normalizeContracts roster with
    | error msg => simp [runPipeline, hnc] at hok
    | ok recs =>
      simp only [runPipeline, hnc] at hok
      injection hok with hok
      subst hok
      simp only [scoreRecords, List.mem_map] at he
      obtain ⟨rga, hrga, rfl⟩ := he
      obtain ⟨r, _, rfl⟩ := hrga
      show (List.lookup r.player (buildPerfMaps perf).1).getD 50 = 50
      have : List.lookup r.player (buildPerfMaps perf).1 = none := hlook
      rw [this]
      rfl

/-- C10 witness: both grade defaults observed on the concrete pipeline
runs over `missDepthDF`. -/
theorem c10_witness :
    missDepthEntity.grade = 70 ∧ missDepthEntity50.grade = 50 := by
  constructor
  · exact (c10_grade_defaults missDepthDF compoundRankDF).1 [missDepthEntity]
      (by with_unfolding_all rfl) missDepthEntity (List.mem_singleton.mpr rfl)
  · exact (c10_grade_defaults missDepthDF compoundRankDF).2 [missDepthEntity50]
      (by with_unfolding_all rfl) missDepthEntity50 (List.mem_singleton.mpr rfl)
      (by with_unfolding_all rfl)



/-- The ten decimal digit characters. -/
def digitChars : List Char := "0123456789".data

theorem natChars_digits (n : ℕ) : ∀ c ∈ natChars n, c ∈ digitChars := by
  induction n using Nat.strong_induction_on with
  | _ n ih =>
    intro c hc
    by_cases h : n < 10
    · rw [natChars, if_pos h] at hc
      simp only [List.mem_singleton] at hc
      subst hc
      interval_cases n <;> decide
    · rw [natChars, if_neg h] at hc
      rcases List.mem_append.mp hc with h1 | h2
      · exact ih (n / 10) (Nat.div_lt_self (by omega) (by omega)) c h1
      · simp only [List.mem_singleton] at h2
        subst h2
        have hm : n % 10 < 10 := Nat.mod_lt _ (by omega)
        interval_cases hx : n % 10 <;> decide

theorem natChars_ne_nil (n : ℕ) : natChars n ≠ [] := by
  by_cases h : n < 10
  · rw [natChars, if_pos h]; simp
  · rw [natChars, if_neg h]; simp

theorem toNat_digitChar {d : ℕ} (hd : d < 10) : (Char.ofNat (48 + d)).toNat = 48 + d := by
  interval_cases d <;> decide

theorem digitsToNat_append_single (l : List Char) (c : Char) :
    digitsToNat (l ++ [c]) = 10 * digitsToNat l + (c.toNat - 48) := by
  simp [digitsToNat, List.foldl_append]

theorem digitsToNat_natChars (n : ℕ) : digitsToNat (natChars n) = n := by
  induction n using Nat.strong_induction_on with
  | _ n ih =>
    by_cases h : n < 10
    · rw [natChars, if_pos h]
      simp [digitsToNat, toNat_digitChar h]
    · rw [natChars, if_neg h, digitsToNat_append_single,
        ih (n / 10) (Nat.div_lt_self (by omega) (by omega)),
        toNat_digitChar (Nat.mod_lt _ (by omega))]
      omega

theorem dropWhile_eq_self_of_none (p : Char → Bool) (l : List Char)
    (h : ∀ c ∈ l, p c = false) : l.dropWhile p = l := by
  cases l with
  | nil => rfl
  | cons a t =>
    rw [List.dropWhile_cons, h a (List.mem_cons_self a t)]
    simp

theorem pyStrip_eq_self (l : List Char) (h : ∀ c ∈ l, isSpace c = false) :
    pyStrip l = l := by
  unfold pyStrip
  rw [dropWhile_eq_self_of_none _ _ h,
    dropWhile_eq_self_of_none _ _ (fun c hc => h c (List.mem_reverse.mp hc)),
    List.reverse_reverse]

theorem digit_not_space {c : Char} (h : c ∈ digitChars) : isSpace c = false := by
  fin_cases h <;> decide

theorem digit_isDigit {c : Char} (h : c ∈ digitChars) : c.isDigit = true := by
  fin_cases h <;> decide

theorem pyInt_digits (l : List Char) (hne : l ≠ [])
    (hd : ∀ c ∈ l, c ∈ digitChars) : pyInt l = some ((digitsToNat l : ℤ)) := by
  obtain ⟨c, r, rfl⟩ : ∃ c r, l = c :: r := by
    cases l with
    | nil => exact absurd rfl hne
    | cons c r => exact ⟨c, r, rfl⟩
  unfold pyInt
  rw [pyStrip_eq_self _ (fun x hx => digit_not_space (hd x hx))]
  have hc := hd c (List.mem_cons_self c r)
  have hplus : c ≠ '+' := by intro e; subst e; revert hc; decide
  have hminus : c ≠ '-' := by intro e; subst e; revert hc; decide
  have hall : (c :: r).all Char.isDigit = true := by
    rw [List.all_eq_true]
    intro x hx
    exact digit_isDigit (hd x hx)
  simp only [pyIntCore, if_neg hplus, if_neg hminus, if_pos hall]

theorem pySplit_no_sep (sep : Char) (l : List Char) (h : sep ∉ l) :
    pySplit sep l = [l] := by
  induction l with
  | nil => rfl
  | cons c rest ih =>
    have hc : c ≠ sep := by intro e; exact h (by simp [e])
    have hr : pySplit sep rest = [rest] := ih (fun hm => h (List.mem_cons_of_mem _ hm))
    simp only [pySplit, if_neg hc, hr]

theorem pySplit_append_sep (sep : Char) (a b : List Char) (h : sep ∉ a) :
    pySplit sep (a ++ sep :: b) = a :: pySplit sep b := by
  induction a with
  | nil => simp [pySplit]
  | cons c a2 ih =>
    have hc : c ≠ sep := by intro e; exact h (by simp [e])
    have ha2 : sep ∉ a2 := fun hm => h (List.mem_cons_of_mem _ hm)
    simp only [List.cons_append, pySplit, if_neg hc, List.append_eq]
    rw [ih ha2]

/-- C1, amended: for every rank string "r/p" with a nonzero pool size,
the computed score is `max(0, 100 - (r/p)*100)`; this gives 80.0 for
"8/40" and 0.0 — not 100.0 — for both "1/1" and "40/40". -/
theorem c1_rank_scoring (r p : ℕ) (hp : p ≠ 0) :
    parseRankScore (natChars r ++ '/' :: natChars p) =
      some (max 0 (100 - (r : ℚ) / (p : ℚ) * 100)) := by
  have hslr : '/' ∉ natChars r := fun hm => by
    have := natChars_digits r _ hm; revert this; decide
  have hslp : '/' ∉ natChars p := fun hm => by
    have := natChars_digits p _ hm; revert this; decide
  have hcont : (natChars r ++ '/' :: natChars p).contains '/' = true := by
    simp [List.contains, List.elem_iff]
  unfold parseRankScore
  rw [if_pos hcont, pySplit_append_sep _ _ _ hslr, pySplit_no_sep _ _ hslp]
  dsimp only
  rw [show (natChars r :: [natChars p]).getD 0 [] = natChars r from rfl,
    show (natChars r :: [natChars p]).getD 1 [] = natChars p from rfl]
  rw [pyInt_digits _ (natChars_ne_nil r) (natChars_digits r),
    pyInt_digits _ (natChars_ne_nil p) (natChars_digits p),
    digitsToNat_natChars, digitsToNat_natChars]
  dsimp only
  rw [if_neg (show ¬ ((p : ℕ) : ℤ) = 0 from by exact_mod_cast hp)]
  norm_num

/-- C1 witness: the general scoring theorem applied at "8/40". -/
theorem c1_witness :
    parseRankScore (natChars 8 ++ '/' :: natChars 40) =
      some (max 0 (100 - (8 : ℚ) / (40 : ℚ) * 100)) :=
  c1_rank_scoring 8 40 (by norm_num)



theorem rowIndexAccess_error (df : DataFrame) (row : List (Option String)) (c : String)
    (h : c ∉ df.columns) : rowIndexAccess df row c = Except.error "KeyError" := by
  have hidx : df.columns.findIdx? (fun x => x = c) = none := by
    rw [List.findIdx?_eq_none_iff]
    intro x hx
    simp only [decide_eq_false_iff_not]
    intro e
    exact h (e ▸ hx)
  unfold rowIndexAccess
  rw [hidx]

/-- When no column name contains "cap", the fallback label is used and it
is itself not a column. -/
theorem capCol_fallback (df : DataFrame)
    (h : ∀ c ∈ df.columns, containsSub (lowerStr c).data "cap".data = false) :
    capCol df = "Cap Number" ∧ "Cap Number" ∉ df.columns := by
  constructor
  · unfold capCol
    rw [List.find?_eq_none.mpr]
    · rfl
    · intro c hc
      simp [h c hc]
  · intro hmem
    have := h _ hmem
    rw [show containsSub (lowerStr "Cap Number").data "cap".data = true from by decide] at this
    exact absurd this (by simp)

theorem buildFinRows_no_cap (df : DataFrame)
    (h : ∀ c ∈ df.columns, containsSub (lowerStr c).data "cap".data = false) :
    ∀ rows, buildFinRows df rows = Except.error "KeyError" ∨ buildFinRows df rows = Except.ok [] := by
  intro rows
  induction rows with
  | nil => right; rfl
  | cons row rest ih =>
    rw [buildFinRows]
    cases ht : truthy (cleanName (rowGet df row (pCol df))) with
    | some n =>
      left
      rw [(capCol_fallback df h).1, rowIndexAccess_error df row _ (capCol_fallback df h).2]
    | none => exact ih

/-- C2, amended: when the roster file has no cap-like column the
normalizer does not return an empty entity set with a warning — it fails
with a `KeyError` that escapes: either from the `row[cap_col]` access on
the first row with a usable name, or (when every name is discarded) from
the `drop_duplicates('Player')` call on the resulting column-less empty
frame.  No warning is issued on this path. -/
theorem c2_no_cap_column_raises (df : DataFrame)
    (h : ∀ c ∈ df.columns, containsSub (lowerStr c).data "cap".data = false) :
    normalizeContracts df = Except.error "KeyError" := by
  unfold normalizeContracts buildFinList
  rcases buildFinRows_no_cap df h df.rows with he | he <;> rw [he]
  rfl

/-- C2 witness: the amended theorem applied to the concrete cap-less
roster file. -/
theorem c2_witness : normalizeContracts noCapDF = Except.error "KeyError" :=
  c2_no_cap_column_raises noCapDF (by decide)



theorem getRoiCategory_mem (lbl : Option String) : getRoiCategory lbl ∈ fixedCategories := by
  cases lbl with
  | none => decide
  | some s =>
    unfold getRoiCategory
    dsimp only
    cases hf : POS_DATA.find?
        (fun p => p.2.1.contains (String.mk (pyStrip (s.data.map Char.toUpper)))) with
    | none => decide
    | some q =>
      have hq : q ∈ POS_DATA := List.mem_of_find?_eq_some hf
      simp only [Option.map_some', Option.getD_some]
      exact List.mem_map.mpr ⟨q, hq, rfl⟩

theorem posMapInner_values (lbl : String) (cells : List String) :
    ∀ (m : List (String × String)), (∀ kv ∈ m, kv.2 ∈ fixedCategories) →
      ∀ kv ∈ cells.foldl
        (fun m2 pn =>
          match truthy (cleanName (some pn)) with
          | some pc => (pc, getRoiCategory (some lbl)) :: m2
          | none => m2) m,
        kv.2 ∈ fixedCategories := by
  induction cells with
  | nil => intro m hm kv hkv; exact hm kv hkv
  | cons pn cells2 ih =>
    intro m hm kv hkv
    simp only [List.foldl_cons] at hkv
    refine ih _ ?_ kv hkv
    cases ht : truthy (cleanName (some pn)) with
    | some pc =>
      intro kv2 hkv2
      rcases List.mem_cons.mp hkv2 with h1 | h2
      · rw [h1]
        exact show getRoiCategory (some lbl) ∈ fixedCategories from getRoiCategory_mem _
      · exact hm kv2 h2
    | none => exact hm

theorem posMap_values (df : DataFrame) :
    ∀ kv ∈ buildPosMap df, kv.2 ∈ fixedCategories := by
  unfold buildPosMap
  suffices h : ∀ (rows : List (List (Option String))) (m : List (String × String)),
      (∀ kv ∈ m, kv.2 ∈ fixedCategories) →
      ∀ kv ∈ rows.foldl
        (fun m row =>
          match (row.get? (labelIdx df)).join with
          | none => m
          | some lbl =>
            ((depthCells df row).filterMap id).foldl
              (fun m2 pn =>
                match truthy (cleanName (some pn)) with
                | some pc => (pc, getRoiCategory (some lbl)) :: m2
                | none => m2) m) m,
        kv.2 ∈ fixedCategories by
    exact h df.rows [] (by simp)
  intro rows
  induction rows with
  | nil => intro m hm kv hkv; exact hm kv hkv
  | cons row rest ih =>
    intro m hm kv hkv
    simp only [List.foldl_cons] at hkv
    refine ih _ ?_ kv hkv
    cases hl : (row.get? (labelIdx df)).join with
    | none => exact hm
    | some lbl => exact posMapInner_values lbl _ m hm

theorem mem_of_lookup {m : List (String × String)} {n c : String}
    (h : List.lookup n m = some c) : (n, c) ∈ m := by
  obtain ⟨l1, l2, rfl, -⟩ := List.lookup_eq_some_iff.mp h
  simp

/-- C3, amended: category assignment is total only at the label level —
`get_roi_category` maps every raw label (including NaN and unmapped
text) into the fixed nine-element category set, and every category value
stored in `pos_map` therefore lies in that set — but an entity whose
name never appears in the depth-chart block receives no category at all
(its Position is NaN), rather than the catch-all. -/
theorem c3_category_totality :
    (∀ lbl, getRoiCategory lbl ∈ fixedCategories) ∧
      (∀ df n c, List.lookup n (buildPosMap df) = some c → c ∈ fixedCategories) := by
  refine ⟨getRoiCategory_mem, ?_⟩
  intro df n c h
  exact posMap_values df (n, c) (mem_of_lookup h)

/-- C3 witness: the totality theorem applied at an unmapped label and at
a concrete depth-chart lookup. -/
theorem c3_witness :
    getRoiCategory (some "EDGE") ∈ fixedCategories ∧ "RB" ∈ fixedCategories :=
  ⟨c3_category_totality.1 (some "EDGE"),
   c3_category_totality.2 twoLabelDF "John Doe" "RB" (by with_unfolding_all rfl)⟩



theorem perfFold_lookup (df : DataFrame) :
    ∀ (rows : List (List (Option String)))
      (acc : List (String × ℚ) × List (String × String)) (n : String) (s : ℚ),
      List.lookup n
        (rows.foldl
          (fun maps row =>
            match truthy (cleanName (rowGet df row "Unnamed: 2")) with
            | some n2 =>
              let rankRaw := strOfCell (rowGet df row "Unnamed: 3")
              match parseRankScore rankRaw with
              | some sc => ((n2, sc) :: maps.1, (n2, String.mk rankRaw) :: maps.2)
              | none => maps
            | none => maps) acc).1 = some s →
      (∃ row ∈ rows, truthy (cleanName (rowGet df row "Unnamed: 2")) = some n ∧
        parseRankScore (strOfCell (rowGet df row "Unnamed: 3")) = some s) ∨
      List.lookup n acc.1 = some s := by
  intro rows
  induction rows with
  | nil => intro acc n s h; right; exact h
  | cons row rest ih =>
    intro acc n s h
    simp only [List.foldl_cons] at h
    rcases ih _ n s h with hex | hacc
    · left
      obtain ⟨r2, hr2, hpr⟩ := hex
      exact ⟨r2, List.mem_cons_of_mem _ hr2, hpr⟩
    · cases ht : truthy (cleanName (rowGet df row "Unnamed: 2")) with
      | none =>
        rw [ht] at hacc
        right
        exact hacc
      | some n2 =>
        rw [ht] at hacc
        dsimp only at hacc
        cases hps : parseRankScore (strOfCell (rowGet df row "Unnamed: 3")) with
        | none =>
          rw [hps] at hacc
          right
          exact hacc
        | some sc =>
          rw [hps] at hacc
          dsimp only at hacc
          by_cases hn : n = n2
          · subst hn
            rw [List.lookup_cons_self] at hacc
            injection hacc with hacc
            subst hacc
            exact Or.inl ⟨row, List.mem_cons_self _ _, ht, hps⟩
          · rw [List.lookup_cons] at hacc
            rw [show (n == n2) = false from by simpa using hn] at hacc
            right
            exact hacc

/-- C4, amended: `normalize_performance` accepts only the compound
"rank/pool" encoding.  Every entry of the returned name-to-grade map
comes from a row whose cleaned name is usable and whose rank cell parses
as "rank/pool" with a nonzero pool; plain integer ranks, like every
other row that fails this parse, are skipped — absent from the map, not
zero-scored. -/
theorem c4_perf_map_entries (pdf : DataFrame) (n : String) (s : ℚ)
    (h : List.lookup n (buildPerfMaps pdf).1 = some s) :
    ∃ row ∈ pdf.rows, truthy (cleanName (rowGet pdf row "Unnamed: 2")) = some n ∧
      parseRankScore (strOfCell (rowGet pdf row "Unnamed: 3")) = some s := by
  rcases perfFold_lookup pdf pdf.rows ([], []) n s h with hex | hacc
  · exact hex
  · exact absurd hacc (by simp)

/-- C4 witness: the amended theorem applied to the map built from the
concrete performance file `compoundRankDF`, whose single row scores
80.0. -/
theorem c4_witness :
    ∃ row ∈ compoundRankDF.rows,
      truthy (cleanName (rowGet compoundRankDF row "Unnamed: 2")) = some "Jane Roe" ∧
      parseRankScore (strOfCell (rowGet compoundRankDF row "Unnamed: 3")) = some 80 :=
  c4_perf_map_entries compoundRankDF "Jane Roe" 80 (by with_unfolding_all rfl)



theorem posMapInner_eq (lbl : String) :
    ∀ (cells : List String) (m : List (String × String)),
      cells.foldl
        (fun m2 pn =>
          match truthy (cleanName (some pn)) with
          | some pc => (pc, getRoiCategory (some lbl)) :: m2
          | none => m2) m =
      (cells.filterMap
        (fun pn => (truthy (cleanName (some pn))).map
          (fun pc => (pc, getRoiCategory (some lbl))))).reverse ++ m := by
  intro cells
  induction cells with
  | nil => intro m; rfl
  | cons pn cells2 ih =>
    intro m
    simp only [List.foldl_cons, List.filterMap_cons]
    cases ht : truthy (cleanName (some pn)) with
    | none => exact ih m
    | some pc =>
      rw [ih ((pc, getRoiCategory (some lbl)) :: m)]
      simp

theorem buildPosMap_eq_reverse (df : DataFrame) :
    buildPosMap df = (posAssignments df).reverse := by
  unfold buildPosMap posAssignments
  suffices h : ∀ (rows : List (List (Option String))) (m : List (String × String)),
      rows.foldl
        (fun m row =>
          match (row.get? (labelIdx df)).join with
          | none => m
          | some lbl =>
            ((depthCells df row).filterMap id).foldl
              (fun m2 pn =>
                match truthy (cleanName (some pn)) with
                | some pc => (pc, getRoiCategory (some lbl)) :: m2
                | none => m2) m) m =
      ((rows.map
        (fun row =>
          match (row.get? (labelIdx df)).join with
          | none => []
          | some lbl =>
            ((depthCells df row).filterMap id).filterMap
              (fun pn =>
                (truthy (cleanName (some pn))).map
                  (fun pc => (pc, getRoiCategory (some lbl)))))).flatten).reverse ++ m by
    rw [h df.rows []]
    simp
  intro rows
  induction rows with
  | nil => intro m; rfl
  | cons row rest ih =>
    intro m
    simp only [List.foldl_cons, List.map_cons, List.flatten_cons, List.reverse_append,
      List.append_assoc]
    cases hl : (row.get? (labelIdx df)).join with
    | none =>
      dsimp only
      rw [ih m]
      simp
    | some lbl =>
      dsimp only
      rw [posMapInner_eq lbl _ m, ih _]

theorem lookup_reverse_eq_getLast (l : List (String × String)) (n : String) :
    List.lookup n l.reverse = ((l.filter (fun p => p.1 = n)).getLast?).map Prod.snd := by
  induction l using List.reverseRecOn with
  | nil => rfl
  | append_singleton l2 a ih =>
    rw [List.reverse_append, List.filter_append]
    simp only [List.reverse_singleton, List.singleton_append]
    obtain ⟨k, v⟩ := a
    by_cases hk : k = n
    · subst hk
      rw [List.lookup_cons_self]
      rw [show List.filter (fun p => decide (p.1 = k)) [(k, v)] = [(k, v)] from by simp]
      rw [List.getLast?_concat]
      rfl
    · rw [List.lookup_cons]
      rw [show (n == k) = false from by simp [Ne.symm hk]]
      rw [show List.filter (fun p => decide (p.1 = n)) [(k, v)] = [] from by simp [hk]]
      rw [List.append_nil]
      exact ih

/-- C5, amended: when the same cleaned player name appears under several
depth-chart labels, the LAST mapping encountered in row-scan order wins:
each `pos_map[p_clean] = ...` assignment overwrites any earlier one, so
the final category for a name is the category of its last assignment,
not its first. -/
theorem c5_last_assignment_wins (df : DataFrame) (n : String) :
    List.lookup n (buildPosMap df) =
      (((posAssignments df).filter (fun p => p.1 = n)).getLast?).map Prod.snd := by
  rw [buildPosMap_eq_reverse, lookup_reverse_eq_getLast]



theorem prefixOf_iff (a : List Char) : ∀ b, a.isPrefixOf b = true ↔ ∃ r, b = a ++ r := by
  induction a with
  | nil => intro b; simp
  | cons x a2 ih =>
    intro b
    cases b with
    | nil => simp
    | cons y b2 =>
      rw [List.isPrefixOf_cons₂, Bool.and_eq_true, beq_iff_eq, ih b2]
      constructor
      · rintro ⟨rfl, r, rfl⟩
        exact ⟨r, rfl⟩
      · rintro ⟨r, hr⟩
        rw [List.cons_append] at hr
        injection hr with h1 h2
        exact ⟨h1.symm, r, h2⟩

theorem endsWithWsTag_decomp (l t : List Char) :
    endsWithWsTag l t = true ↔ ∃ b w, isSpace w = true ∧ l = b ++ w :: t := by
  unfold endsWithWsTag
  rw [Bool.and_eq_true, prefixOf_iff]
  constructor
  · rintro ⟨⟨r, hr⟩, hm⟩
    rw [hr, List.drop_left' (by simp)] at hm
    cases r with
    | nil => exact absurd hm (by simp)
    | cons w r2 =>
      refine ⟨r2.reverse, w, hm, ?_⟩
      have hl : l = (t.reverse ++ w :: r2).reverse := by rw [← hr, List.reverse_reverse]
      rw [hl]
      simp
  · rintro ⟨b, w, hw, rfl⟩
    constructor
    · exact ⟨w :: b.reverse, by simp⟩
    · rw [show (b ++ w :: t).reverse = t.reverse ++ w :: b.reverse from by simp,
        List.drop_left' (by simp)]
      exact hw

theorem tag_suffix_unique {b : List Char} {w : Char} {t t2 : List Char}
    (hw : isSpace w = true)
    (htns : ∀ c ∈ t, isSpace c = false) (ht2ns : ∀ c ∈ t2, isSpace c = false)
    (h : endsWithWsTag (b ++ w :: t) t2 = true) : t2 = t := by
  rcases (endsWithWsTag_decomp _ _).mp h with ⟨b2, w2, hw2, heq⟩
  have hrev : t.reverse ++ w :: b.reverse = t2.reverse ++ w2 :: b2.reverse := by
    have h2 := congrArg List.reverse heq
    simpa using h2
  rcases Nat.lt_trichotomy t2.length t.length with hlt | heqn | hgt
  · exfalso
    have hidx : (t.reverse ++ w :: b.reverse).get? t2.length = some w2 := by
      rw [hrev, List.get?_append_right (by simp)]
      simp
    rw [List.get?_append (by simpa using hlt)] at hidx
    have hmem : w2 ∈ t := List.mem_reverse.mp (List.get?_mem hidx)
    rw [htns w2 hmem] at hw2
    exact absurd hw2 (by simp)
  · have hts : t.reverse = t2.reverse :=
      (List.append_inj hrev (by simpa using heqn.symm)).1
    have := congrArg List.reverse hts
    simpa using this.symm
  · exfalso
    have hidx : (t2.reverse ++ w2 :: b2.reverse).get? t.length = some w := by
      rw [← hrev, List.get?_append_right (by simp)]
      simp
    rw [List.get?_append (by simpa using hgt)] at hidx
    have hmem : w ∈ t2 := List.mem_reverse.mp (List.get?_mem hidx)
    rw [ht2ns w hmem] at hw
    exact absurd hw (by simp)

theorem find?_eq_some_of_unique {L : List (List Char)} {p : List Char → Bool} {t : List Char}
    (hmem : t ∈ L) (hpt : p t = true) (huniq : ∀ x ∈ L, p x = true → x = t) :
    L.find? p = some t := by
  induction L with
  | nil => exact absurd hmem (by simp)
  | cons a L2 ih =>
    by_cases hpa : p a = true
    · have ha : a = t := huniq a (List.mem_cons_self _ _) hpa
      subst ha
      exact List.find?_cons_of_pos _ hpa
    · rw [List.find?_cons_of_neg _ (by simpa using hpa)]
      rcases List.mem_cons.mp hmem with rfl | hm
      · exact absurd hpt hpa
      · exact ih hm (fun x hx hpx => huniq x (List.mem_cons_of_mem _ hx) hpx)

theorem stripStatusTag_strip (b : List Char) (w : Char) (t : List Char)
    (hw : isSpace w = true) (ht : t ∈ statusTags) :
    stripStatusTag (b ++ w :: t) = b := by
  have hnos : ∀ t2 ∈ statusTags, ∀ c ∈ t2, isSpace c = false := by decide
  have hfind : statusTags.find? (fun t2 => endsWithWsTag (b ++ w :: t) t2) = some t := by
    refine find?_eq_some_of_unique ht ((endsWithWsTag_decomp _ _).mpr ⟨b, w, hw, rfl⟩) ?_
    intro x hx hpx
    exact tag_suffix_unique hw (hnos t ht) (hnos x hx) hpx
  unfold stripStatusTag
  rw [hfind]
  dsimp only
  rw [show (b ++ w :: t).reverse = t.reverse ++ w :: b.reverse from by simp,
    show t.length + 1 = (t.reverse ++ [w]).length from by simp,
    show t.reverse ++ w :: b.reverse = (t.reverse ++ [w]) ++ b.reverse from by simp,
    List.drop_left, List.reverse_reverse]

theorem containsSub_cons (c : Char) (l pat : List Char) :
    containsSub (c :: l) pat = (pat.isPrefixOf (c :: l) || containsSub l pat) := by
  unfold containsSub
  rw [List.tails_cons, List.any_cons]

theorem removeAll_id (pat l : List Char) (h : containsSub l pat = false) :
    removeAll pat l = l := by
  induction l with
  | nil =>
    rw [removeAll]
    split <;> rfl
  | cons c rest ih =>
    rw [containsSub_cons, Bool.or_eq_false_iff] at h
    rw [removeAll]
    split
    · rfl
    · rw [if_neg (by simp [h.1]), ih h.2]

theorem roleFold_id (l : List Char) (h : ∀ rw2 ∈ roleWords, containsSub l rw2 = false) :
    roleWords.foldl (fun acc w => removeAll w acc) l = l := by
  show removeAll "4th".data (removeAll "3rd".data
    (removeAll "2nd".data (removeAll "Starter".data l))) = l
  rw [removeAll_id _ l (h _ (by decide)), removeAll_id _ l (h _ (by decide)),
    removeAll_id _ l (h _ (by decide)), removeAll_id _ l (h _ (by decide))]

/-- C6, amended: for a name of the form `body ++ ws ++ tag` with `tag`
one of the known trailing status tags and `ws` one whitespace character,
cleaning returns exactly `body` — provided the name survives the
sentinel checks (it is not the dash placeholder and contains neither
"Rank" nor "Pos"), contains none of the role words ("Starter", "2nd",
"3rd", "4th") that are deleted wherever they occur, and `body` carries
no surrounding whitespace of its own (otherwise the final `strip()`
removes more).  Names failing these side conditions are changed beyond
pure tag removal, as the counterexample shows. -/
theorem c6_tag_stripping (b : List Char) (w : Char) (t : List Char)
    (ht : t ∈ statusTags) (hw : isSpace w = true)
    (hdash : b ++ w :: t ≠ "-".data)
    (hrank : containsSub (b ++ w :: t) "Rank".data = false)
    (hpos : containsSub (b ++ w :: t) "Pos".data = false)
    (hrole : ∀ rw2 ∈ roleWords, containsSub (b ++ w :: t) rw2 = false)
    (htrim : pyStrip b = b) :
    cleanNameChars (b ++ w :: t) = some b := by
  unfold cleanNameChars
  rw [if_neg (by simp [hdash, hrank, hpos])]
  rw [roleFold_id _ hrole, stripStatusTag_strip b w t hw ht, htrim]

/-- C6 witness: the amended theorem applied to "John Doe IR". -/
theorem c6_witness :
    cleanNameChars ("John Doe".data ++ ' ' :: "IR".data) = some ("John Doe".data) :=
  c6_tag_stripping "John Doe".data ' ' "IR".data (by decide) (by decide) (by decide)
    (by decide) (by decide) (by decide) (by decide)



theorem expFactor_pos (l : List Char) (f : ℚ) (h : expFactor l = some f) : 0 < f := by
  unfold expFactor at h
  split at h
  · exact absurd h (by simp)
  · split at h
    · split at h
      · exact absurd h (by simp)
      · injection h with h
        subst h
        positivity
    · split at h
      · split at h
        · exact absurd h (by simp)
        · injection h with h
          subst h
          positivity
      · split at h
        · exact absurd h (by simp)
        · injection h with h
          subst h
          positivity

theorem pyFloatCore_nonneg (l : List Char) (q : ℚ) (h : pyFloatCore l = some q) : 0 ≤ q := by
  unfold pyFloatCore at h
  dsimp only at h
  split at h
  · split at h
    · exact absurd h (by simp)
    · injection h with h
      subst h
      positivity
  · split at h
    · split at h
      · exact absurd h (by simp)
      · split at h
        · injection h with h
          subst h
          positivity
        · split at h
          · rcases Option.map_eq_some'.mp h with ⟨f, hf, rfl⟩
            have hf2 := expFactor_pos _ _ hf
            positivity
          · exact absurd h (by simp)
    · split at h
      · split at h
        · exact absurd h (by simp)
        · rcases Option.map_eq_some'.mp h with ⟨f, hf, rfl⟩
          have hf2 := expFactor_pos _ _ hf
          positivity
      · exact absurd h (by simp)

theorem mem_pyStrip {c : Char} {l : List Char} (h : c ∈ pyStrip l) : c ∈ l := by
  unfold pyStrip at h
  rw [List.mem_reverse] at h
  have h2 := (List.dropWhile_sublist _).mem h
  rw [List.mem_reverse] at h2
  exact (List.dropWhile_sublist _).mem h2

theorem pyFloat_nonneg (l : List Char) (hm : '-' ∉ l) (q : ℚ)
    (h : pyFloat l = some q) : 0 ≤ q := by
  rw [show pyFloat l = pyFloatSigned (pyStrip l) from rfl] at h
  cases hcr : pyStrip l with
  | nil =>
    rw [hcr] at h
    exact absurd h (by simp [pyFloatSigned])
  | cons c r =>
    rw [hcr] at h
    have hcl : c ∈ l := mem_pyStrip (by rw [hcr]; exact List.mem_cons_self _ _)
    have hc : ¬ c = '-' := fun e => hm (e ▸ hcl)
    by_cases hp : c = '+'
    · simp only [pyFloatSigned, if_pos hp] at h
      exact pyFloatCore_nonneg _ _ h
    · simp only [pyFloatSigned] at h
      rw [if_neg hp, if_neg hc] at h
      exact pyFloatCore_nonneg _ _ h

/-- C8, amended: the parsed cap amount is non-negative for every money
string that carries no minus sign, and every unparsable string yields
0.0; but a minus-signed money string parses to a negative cap amount, as
the counterexample shows, so "non-negative" does not hold for all
parsable inputs. -/
theorem c8_cap_amount (s : String) :
    ('-' ∉ s.data → 0 ≤ cleanCurrency (some s)) ∧
      (pyFloat (stripCurrency s.data) = none → cleanCurrency (some s) = 0) := by
  constructor
  · intro hm
    show 0 ≤ (pyFloat (stripCurrency s.data)).getD 0
    cases hq : pyFloat (stripCurrency s.data) with
    | none => simp
    | some q =>
      simp only [Option.getD_some]
      refine pyFloat_nonneg _ ?_ q hq
      intro hmem
      exact hm (List.mem_of_mem_filter hmem)
  · intro hn
    show (pyFloat (stripCurrency s.data)).getD 0 = 0
    rw [hn]
    rfl

/-- C8 witness: the amended theorem applied to a plain money string and
to a non-numeric one. -/
theorem c8_witness :
    0 ≤ cleanCurrency (some "$1,000") ∧ cleanCurrency (some "abc") = 0 :=
  ⟨(c8_cap_amount "$1,000").1 (by decide), (c8_cap_amount "abc").2 (by with_unfolding_all rfl)⟩


end RosterROI
